import Mathlib

/-!
Verification of the ai-content-pipeline repository: a shallow embedding of
the scheduler slot arithmetic (pipeline/scheduler.py), the engagement-score
ranking (pipeline/scraper.py), the orchestrator status state machine
(pipeline/orchestrator.py together with database.py), the ffmpeg composition
chain (pipeline/video_editor.py with utils/file_manager.py), and the caption
line-wrapping loop (pipeline/video_editor.py).

External effects (HTTP calls, ffmpeg subprocesses, the filesystem) are
resolved by explicit environment records: each oracle field stands for the
observable outcome of one external call, with the empty string playing the
role of Python's falsy None/empty results, exactly as the call sites test
them (`if not x`).
-/

namespace Clawdbot

/-! ## Scheduler: pipeline/scheduler.py, BlatoScheduler.schedule_batch -/

/-- The fixed daily posting hours from scheduler.py line 168:
`hours = [9, 13, 18]` (09:00, 13:00, 18:00). -/
def hoursList : List Nat := [9, 13, 18]

/-- The schedule-time computation of scheduler.py lines 165-171 for the item
at enumeration index `i`: `day_offset = i // posts_per_day`,
`slot_in_day = i % posts_per_day`, `hour = hours[slot_in_day % len(hours)]`,
`schedule_dt = now + timedelta(days=day_offset + 1)` with the clock replaced
by `hour:00:00`.  Returned as (day offset from now, hour of day). -/
def scheduleTime (postsPerDay i : Nat) : Nat × Nat :=
  let dayOffset := i / postsPerDay
  let slotInDay := i % postsPerDay
  let hour := hoursList.getD (slotInDay % hoursList.length) 0
  (dayOffset + 1, hour)

/-- One entry of the `videos_with_captions` batch: the dict with keys
`video_path` and `caption` (scheduler.py line 141). -/
structure BatchItem where
  videoPath : String
  caption : String
deriving DecidableEq, Repr

/-- Outcomes of the external effects reached from `schedule_batch`:
the configured `BLOTATO_API_KEY`, the `Path(video_path).exists()` check,
and the results of `upload_media` and `schedule_post` for the item at
loop index `i` (empty string = Python falsy failure result). -/
structure SchedulerEnv where
  apiKey : String
  fileExists : String → Bool
  uploadResult : Nat → String
  scheduleResult : Nat → String

/-- One iteration of the `for i, item in enumerate(videos_with_captions)`
loop of scheduler.py lines 156-186, acting on the accumulated
(submission_ids, trace of computed schedule times).  A trace entry
`(i, day, hour)` is recorded at the point the schedule time is computed
(lines 164-176), i.e. for every item that passes the missing-video check. -/
def scheduleBatchStep (env : SchedulerEnv) (postsPerDay : Nat)
    (acc : List String × List (Nat × Nat × Nat)) (p : Nat × BatchItem) :
    List String × List (Nat × Nat × Nat) :=
  let i := p.1
  let item := p.2
  if item.videoPath = "" ∨ env.fileExists item.videoPath = false then acc
  else
    let t := scheduleTime postsPerDay i
    let tr := acc.2 ++ [(i, t)]
    let mediaId := env.uploadResult i
    if mediaId = "" then (acc.1, tr)
    else
      let subId := env.scheduleResult i
      if subId = "" then (acc.1, tr) else (acc.1 ++ [subId], tr)

/-- `BlatoScheduler.schedule_batch` (scheduler.py lines 134-191): bail out
with `[]` when the API key is unset, otherwise fold the per-item step over
the enumerated batch.  Returns (submission ids, trace of schedule times). -/
def scheduleBatch (env : SchedulerEnv) (postsPerDay : Nat)
    (batch : List BatchItem) : List String × List (Nat × Nat × Nat) :=
  if env.apiKey = "" then ([], [])
  else batch.enum.foldl (scheduleBatchStep env postsPerDay) ([], [])

/-! ## Scraper: pipeline/scraper.py, engagement score and get_top_content -/

/-- A scraped content item, keeping just the engagement fields that
`_engagement_score` reads.  `none` models an absent dict key; `some v`
a present numeric value (scraper.py lines 60-65 read them with
`item.get("likes", 0) or 0` etc.). -/
structure ScrapedItem where
  likes : Option Int
  shares : Option Int
  views : Option Int
deriving DecidableEq, Repr

/-- Python's `item.get(key, d) or d`: a missing key or a falsy (zero) value
falls back to the default `d`. -/
def orGetInt (x : Option Int) (d : Int) : Int :=
  match x with
  | none => d
  | some v => if v = 0 then d else v

/-- `ApifyScraper._engagement_score` (scraper.py lines 60-65):
`(likes + shares) / max(views, 1)` with the `get`/`or` defaults of the
source (0 for likes and shares, 1 for views), as an exact rational. -/
def engagementScore (it : ScrapedItem) : ℚ :=
  ((orGetInt it.likes 0 + orGetInt it.shares 0 : ℤ) : ℚ) /
    ((max (orGetInt it.views 1) 1 : ℤ) : ℚ)

/-- Insert `x` into an already descending-sorted list, before the first
element whose key is not larger: the placement a stable sort gives an
element that precedes the rest of the list in the input. -/
def insertDesc (key : α → ℚ) (x : α) : List α → List α
  | [] => [x]
  | y :: ys => if key x < key y then y :: insertDesc key x ys else x :: y :: ys

/-- Stable descending sort by `key`: the extensional behaviour of Python's
`list.sort(key=..., reverse=True)` (scraper.py line 171), which is
documented to be stable and to keep equal-key elements in input order. -/
def sortDesc (key : α → ℚ) : List α → List α
  | [] => []
  | x :: xs => insertDesc key x (sortDesc key xs)

/-- `ApifyScraper.get_top_content` (scraper.py lines 158-176) after the three
platform scrapes have been combined into `allContent`: return `[]` when
nothing was scraped, else sort by engagement score descending (stable) and
keep the first `count` items. -/
def getTopContent (allContent : List ScrapedItem) (count : Nat) :
    List ScrapedItem :=
  if allContent.isEmpty then []
  else (sortDesc engagementScore allContent).take count

/-! ## Database and orchestrator: database.py, pipeline/orchestrator.py -/

/-- The lifecycle statuses written to `content_queue.status`. -/
inductive Status where
  | pending
  | generating
  | generated
  | failed
  | scheduled
deriving DecidableEq, Repr

/-- One `content_queue` row, with the fields the orchestrator reads and
writes.  Path and id fields use `""` for SQL NULL / unset, matching the
Python call sites which test them with falsy checks (`if not final_path`). -/
structure Content where
  status : Status
  videoPath : String
  audioPath : String
  finalVideoPath : String
  postSubmissionId : String
  caption : String
deriving DecidableEq, Repr

/-- The `content_queue` table, keyed by row id. -/
def DB : Type := Nat → Option Content

/-- `Database.add_content` (database.py lines 83-100) materialised at a
chosen fresh row id: the new row starts at status `pending` with all
artifact paths NULL. -/
def addContentAt (db : DB) (qid : Nat) (caption : String) : DB :=
  fun n =>
    if n = qid then
      some { status := Status.pending, videoPath := "", audioPath := "",
             finalVideoPath := "", postSubmissionId := "", caption := caption }
    else db n

/-- Outcomes of the external calls made inside `run_generation`
(orchestrator.py lines 104-166), keyed by the queue id being processed:
the configured `SOUL_ID` and the results of
`HiggsFieldGenerator.generate_video`, `ElevenLabsVoice.synthesize_script`
and `VideoEditor.compose_final` (empty string = falsy failure). -/
structure GenEnv where
  soulId : String
  genVideo : Nat → String
  synth : Nat → String
  compose : Nat → String

/-- State threaded through `run_generation`: the database, the
`generated_ids` result list, the log of status transitions performed
(queue id, status before, status written), and the queue ids for which the
video-generation API was invoked. -/
structure GenState where
  db : DB
  generatedIds : List Nat
  transitions : List (Nat × Status × Status)
  apiCalls : List Nat

/-- `Database.update_content_status` (database.py lines 102-117) as called
from `run_generation`: write `status` and whichever of the three artifact
paths were passed as kwargs (`none` = kwarg absent, field kept).  An UPDATE
on a missing row changes nothing.  The transition performed is recorded. -/
def genUpdate (s : GenState) (qid : Nat) (st : Status)
    (vp ap fp : Option String) : GenState :=
  match s.db qid with
  | none => s
  | some c =>
      { s with
        db := fun n =>
          if n = qid then
            some { c with
                   status := st,
                   videoPath := vp.getD c.videoPath,
                   audioPath := ap.getD c.audioPath,
                   finalVideoPath := fp.getD c.finalVideoPath }
          else s.db n,
        transitions := s.transitions ++ [(qid, c.status, st)] }

/-- The body of the `for qid in queue_ids` loop of `run_generation`
(orchestrator.py lines 104-165): skip missing rows; mark `generating`;
call the video API; on falsy results mark `failed` keeping whatever
artifact paths were already produced; on success write all three paths
with status `generated` and collect the id. -/
def genItemStep (env : GenEnv) (s : GenState) (qid : Nat) : GenState :=
  match s.db qid with
  | none => s
  | some _ =>
    let s1 := genUpdate s qid Status.generating none none none
    let s2 := { s1 with apiCalls := s1.apiCalls ++ [qid] }
    let vp := env.genVideo qid
    if vp = "" then genUpdate s2 qid Status.failed none none none
    else
      let ap := env.synth qid
      if ap = "" then genUpdate s2 qid Status.failed (some vp) none none
      else
        let fp := env.compose qid
        if fp = "" then genUpdate s2 qid Status.failed (some vp) (some ap) none
        else
          let s3 := genUpdate s2 qid Status.generated (some vp) (some ap) (some fp)
          { s3 with generatedIds := s3.generatedIds ++ [qid] }

/-- `PipelineOrchestrator.run_generation` (orchestrator.py lines 84-168):
with no Soul ID configured, warn and return `[]` before any component is
constructed or called; otherwise process each queued id in order. -/
def runGeneration (env : GenEnv) (db : DB) (qids : List Nat) : GenState :=
  if env.soulId = "" then ⟨db, [], [], []⟩
  else qids.foldl (genItemStep env) ⟨db, [], [], []⟩

/-- The status `genItemStep` leaves on an existing row, as a function of the
three external-call outcomes. -/
def genOutcomeStatus (env : GenEnv) (qid : Nat) : Status :=
  if env.genVideo qid = "" then Status.failed
  else if env.synth qid = "" then Status.failed
  else if env.compose qid = "" then Status.failed
  else Status.generated

/-- The row content `genItemStep` leaves on an existing row `c`, as a
function of the three external-call outcomes. -/
def genOutcomeContent (env : GenEnv) (qid : Nat) (c : Content) : Content :=
  if env.genVideo qid = "" then { c with status := Status.failed }
  else if env.synth qid = "" then
    { c with status := Status.failed, videoPath := env.genVideo qid }
  else if env.compose qid = "" then
    { c with status := Status.failed, videoPath := env.genVideo qid,
             audioPath := env.synth qid }
  else
    { c with status := Status.generated, videoPath := env.genVideo qid,
             audioPath := env.synth qid, finalVideoPath := env.compose qid }

/-- State threaded through `run_scheduling`: the database, the
`scheduled_ids` result list and the transitions performed. -/
structure SchedState where
  db : DB
  scheduledIds : List Nat
  transitions : List (Nat × Status × Status)

/-- The per-id filter of the batch-building loop of `run_scheduling`
(orchestrator.py lines 191-203): a queued id contributes a batch entry
exactly when its row exists with status `generated` and a non-empty
`final_video_path`. -/
def selectOne (db : DB) (q : Nat) : Option (Nat × BatchItem) :=
  match db q with
  | none => none
  | some c =>
    if c.status = Status.generated then
      if c.finalVideoPath = "" then none
      else some (q, { videoPath := c.finalVideoPath, caption := c.caption })
    else none

/-- The batch built by `run_scheduling`: the qualifying ids in order, each
paired with its batch entry.  The position of a pair in this list is its
batch index (the `id_map` of the source). -/
def selectBatch (db : DB) (qids : List Nat) : List (Nat × BatchItem) :=
  qids.filterMap (selectOne db)

/-- One iteration of the `for i, sub_id in enumerate(submission_ids)` loop
(orchestrator.py lines 212-222).  `id_map.get(i)` pairs the i-th submission
id with the i-th selected batch entry, which is exactly `zip`; the update
fires only when both the id and the submission id are truthy. -/
def schedStep (s : SchedState) (p : String × (Nat × BatchItem)) : SchedState :=
  let subId := p.1
  let qid := p.2.1
  if qid ≠ 0 ∧ subId ≠ "" then
    match s.db qid with
    | none => { s with scheduledIds := s.scheduledIds ++ [qid] }
    | some c =>
        { db := fun n =>
            if n = qid then
              some { c with status := Status.scheduled, postSubmissionId := subId }
            else s.db n
          scheduledIds := s.scheduledIds ++ [qid]
          transitions := s.transitions ++ [(qid, c.status, Status.scheduled)] }
  else s

/-- `PipelineOrchestrator.run_scheduling` (orchestrator.py lines 172-225):
bail out when `BLOTATO_API_KEY` is unset or no generated video is available,
otherwise run `schedule_batch` on the selected entries and mark the items
matched (by position) with a truthy submission id as `scheduled`. -/
def runScheduling (env : SchedulerEnv) (postsPerDay : Nat) (db : DB)
    (qids : List Nat) : SchedState :=
  if env.apiKey = "" then ⟨db, [], []⟩
  else
    let selected := selectBatch db qids
    if selected.isEmpty then ⟨db, [], []⟩
    else
      let subs := (scheduleBatch env postsPerDay (selected.map Prod.snd)).1
      (subs.zip selected).foldl schedStep ⟨db, [], []⟩

/-- The status transitions the spec admits: the monotone chain
pending → generating → (generated or failed) plus generated → scheduled. -/
def allowedNext : Status → Status → Bool
  | Status.pending, Status.generating => true
  | Status.generating, Status.generated => true
  | Status.generating, Status.failed => true
  | Status.generated, Status.scheduled => true
  | _, _ => false

/-- The data-model invariant of spec section 3: a row's final-video path is
set exactly when its status has reached `generated` or `scheduled`. -/
def InvDB (db : DB) : Prop :=
  ∀ q c, db q = some c →
    (c.finalVideoPath ≠ "" ↔ (c.status = Status.generated ∨ c.status = Status.scheduled))

/-! ## Video editor: pipeline/video_editor.py, compose_final -/

/-- The filesystem as seen through `Path.exists` and `stat().st_size`:
each path maps to the size of the file there, or `none` when absent. -/
def FS : Type := String → Option Nat

/-- `FileManager.verify_file` (utils/file_manager.py lines 41-50): the file
exists and holds at least `minSize` bytes. -/
def verifyFile (fs : FS) (p : String) (minSize : Nat) : Bool :=
  match fs p with
  | none => false
  | some sz => decide (minSize ≤ sz)

/-- Outcomes of the three ffmpeg passes run by `compose_final`: for each
pass, whether its ffmpeg invocation returned success, and the byte size of
the file it wrote when it did. -/
structure ComposeEnv where
  introOk : Bool
  introSize : Nat
  mergeOk : Bool
  mergeSize : Nat
  captionOk : Bool
  captionSize : Nat

/-- `VideoEditor.add_intro_card` (video_editor.py lines 161-199): on ffmpeg
success the output file is written; the call returns the output path only
when the write happened and the minimum-size check passes. -/
def addIntroCard (env : ComposeEnv) (fs : FS) (out : String) :
    FS × Option String :=
  if env.introOk then
    let fs2 : FS := fun p => if p = out then some env.introSize else fs p
    (fs2, if verifyFile fs2 out 1 then some out else none)
  else (fs, none)

/-- `VideoEditor.add_audio_to_video` (video_editor.py lines 64-111): same
write-then-verify shape as the intro pass (the duration probe failing is
folded into `mergeOk = false`, which returns before any write). -/
def addAudioToVideo (env : ComposeEnv) (fs : FS) (out : String) :
    FS × Option String :=
  if env.mergeOk then
    let fs2 : FS := fun p => if p = out then some env.mergeSize else fs p
    (fs2, if verifyFile fs2 out 1 then some out else none)
  else (fs, none)

/-- `VideoEditor.add_captions` (video_editor.py lines 115-157): same
write-then-verify shape, burning captions onto the input video. -/
def addCaptions (env : ComposeEnv) (fs : FS) (out : String) :
    FS × Option String :=
  if env.captionOk then
    let fs2 : FS := fun p => if p = out then some env.captionSize else fs p
    (fs2, if verifyFile fs2 out 1 then some out else none)
  else (fs, none)

/-- The temp path of the intro pass, `outputs/temp/step1_intro.mp4`. -/
def introTmp : String := "temp/step1_intro.mp4"

/-- The temp path of the audio-merge pass, `outputs/temp/step2_merged.mp4`. -/
def mergedTmp : String := "temp/step2_merged.mp4"

/-- `VideoEditor.compose_final` (video_editor.py lines 203-258): three
best-effort passes.  A failed intro pass carries the input video forward; a
failed merge carries the intro result forward; a failed caption burn copies
the best result so far to the output path (`shutil.copy2`, which raises —
caught as None — when the source is missing).  The composed result is
returned only if the output path passes the minimum-size check; the temp
files are removed in the `finally` block either way. -/
def composeFinal (env : ComposeEnv) (fs : FS) (videoPath outputPath : String) :
    FS × Option String :=
  let r1 := addIntroCard env fs introTmp
  let introPath := match r1.2 with | some p => p | none => videoPath
  let r2 := addAudioToVideo env r1.1 mergedTmp
  let mergedPath := match r2.2 with | some p => p | none => introPath
  let r3 := addCaptions env r2.1 outputPath
  let afterCopy : FS × Option Unit :=
    match r3.2 with
    | some _ => (r3.1, some ())
    | none =>
      match r3.1 mergedPath with
      | none => (r3.1, none)
      | some sz => (fun p => if p = outputPath then some sz else r3.1 p, some ())
  let result : Option String :=
    match afterCopy.2 with
    | none => none
    | some _ => if verifyFile afterCopy.1 outputPath 1 then some outputPath else none
  let cleaned : FS := fun p =>
    if p = introTmp ∨ p = mergedTmp then none else afterCopy.1 p
  (cleaned, result)

/-! ## Caption wrapping: pipeline/video_editor.py, add_captions lines 122-134 -/

/-- The display length of the joined line `" ".join(ws)`: the word lengths
plus one separating space between adjacent words (`len(current_line)` in the
source, where `current_line` is built with `f"{current_line} {word}".strip()`). -/
def lineLen (ws : List String) : Nat :=
  (ws.map String.length).sum + (ws.length - 1)

/-- The wrapping loop of `add_captions` (video_editor.py lines 123-133),
with the current line kept as its list of words: a word that would push the
joined line past 40 characters flushes the current line and starts a new
one; the final non-empty line is flushed after the loop. -/
def wrapAux (cur : List String) : List String → List (List String)
  | [] => if cur.isEmpty then [] else [cur]
  | w :: ws =>
    if lineLen cur + w.length + 1 > 40 then cur :: wrapAux [w] ws
    else wrapAux (cur ++ [w]) ws

/-- The full wrap of a caption already split into whitespace-free words
(`caption_text.split()`). -/
def wrapWords (words : List String) : List (List String) :=
  wrapAux [] words

/-! ## Credential checks at construction: the five component constructors -/

/-- `ApifyScraper.__init__` (scraper.py lines 38-41): raises ValueError when
`APIFY_API_TOKEN` is unset. -/
def apifyScraperInit (token : String) : Except String Unit :=
  if token = "" then Except.error "APIFY_API_TOKEN is not set in .env"
  else Except.ok ()

/-- `GeminiAnalyzer.__init__` (analyzer.py lines 45-49): raises ValueError
when `GEMINI_API_KEY` is unset. -/
def geminiAnalyzerInit (key : String) : Except String Unit :=
  if key = "" then Except.error "GEMINI_API_KEY is not set in .env"
  else Except.ok ()

/-- `BlatoScheduler.__init__` (scheduler.py lines 21-25): only logs a
warning when `BLOTATO_API_KEY` is unset — never raises. -/
def blatoSchedulerInit (_apiKey : String) : Except String Unit :=
  Except.ok ()

/-- `HiggsFieldGenerator.__init__` (video_generator.py lines 21-26): only
logs a warning when `HIGGSFIELD_API_KEY` is unset — never raises. -/
def higgsFieldInit (_apiKey : String) : Except String Unit :=
  Except.ok ()

/-- `ElevenLabsVoice.__init__` (voice_synthesizer.py lines 20-26): only logs
a warning when `ELEVENLABS_API_KEY` is unset — never raises. -/
def elevenLabsInit (_apiKey : String) : Except String Unit :=
  Except.ok ()

/-- `BlatoScheduler.upload_media` (scheduler.py lines 34-65): with no key,
log and return None; an exception from the HTTP call is caught at the
boundary and converted to None; an empty media id in the response is also
None. -/
def uploadMedia (apiKey : String) (httpResult : Except String String) :
    Option String :=
  if apiKey = "" then none
  else
    match httpResult with
    | Except.error _ => none
    | Except.ok mediaId => if mediaId = "" then none else some mediaId

/-- `BlatoScheduler.schedule_post` (scheduler.py lines 69-114): same
guard-then-catch shape as `upload_media`. -/
def schedulePostOp (apiKey : String) (httpResult : Except String String) :
    Option String :=
  if apiKey = "" then none
  else
    match httpResult with
    | Except.error _ => none
    | Except.ok subId => if subId = "" then none else some subId

/-- `HiggsFieldGenerator.generate_video` (video_generator.py lines 116-174):
with no key, log and return None; any exception from the request, polling
or download is caught at the boundary and converted to None. -/
def generateVideoOp (apiKey : String) (httpResult : Except String String) :
    Option String :=
  if apiKey = "" then none
  else
    match httpResult with
    | Except.error _ => none
    | Except.ok path => if path = "" then none else some path

/-! ## Concrete fixtures used by witnesses and counterexamples -/

/-- A scheduler environment in which every external call succeeds. -/
def envAll : SchedulerEnv :=
  { apiKey := "key", fileExists := fun _ => true,
    uploadResult := fun _ => "media", scheduleResult := fun _ => "sub" }

/-- A three-item batch with present video files. -/
def batch3 : List BatchItem :=
  [{ videoPath := "a.mp4", caption := "cap" },
   { videoPath := "b.mp4", caption := "cap" },
   { videoPath := "c.mp4", caption := "cap" }]

/-- A four-item batch with present video files. -/
def batch4 : List BatchItem :=
  [{ videoPath := "a.mp4", caption := "cap" },
   { videoPath := "b.mp4", caption := "cap" },
   { videoPath := "c.mp4", caption := "cap" },
   { videoPath := "d.mp4", caption := "cap" }]

/-- A generation environment with a Soul ID in which every external call
fails (returns a falsy result). -/
def envFailGen : GenEnv :=
  { soulId := "soul", genVideo := fun _ => "", synth := fun _ => "",
    compose := fun _ => "" }

/-- A generation environment with no Soul ID configured. -/
def envNoSoul : GenEnv :=
  { soulId := "", genVideo := fun _ => "v.mp4", synth := fun _ => "a.mp3",
    compose := fun _ => "f.mp4" }

/-- A one-row database whose item 1 is already `scheduled` with a final
video path set. -/
def dbScheduled : DB := fun n =>
  if n = 1 then
    some { status := Status.scheduled, videoPath := "v.mp4",
           audioPath := "a.mp3", finalVideoPath := "f.mp4",
           postSubmissionId := "sub", caption := "cap" }
  else none

/-- A one-row database whose item 1 is already `generated` with a final
video path set. -/
def dbGenerated : DB := fun n =>
  if n = 1 then
    some { status := Status.generated, videoPath := "v.mp4",
           audioPath := "a.mp3", finalVideoPath := "f.mp4",
           postSubmissionId := "", caption := "cap" }
  else none

/-- A one-row database whose item 1 is freshly discovered (`pending`, no
artifact paths). -/
def dbPending : DB := fun n =>
  if n = 1 then
    some { status := Status.pending, videoPath := "", audioPath := "",
           finalVideoPath := "", postSubmissionId := "", caption := "cap" }
  else none

/-- A composition environment in which the intro-card pass fails and the
other two passes succeed. -/
def envIntroFails : ComposeEnv :=
  { introOk := false, introSize := 0, mergeOk := true, mergeSize := 7,
    captionOk := true, captionSize := 9 }

/-- A filesystem holding a 5-byte video and a 4-byte audio file. -/
def fsVideoAudio : FS := fun p =>
  if p = "v.mp4" then some 5 else if p = "a.mp3" then some 4 else none

/-! ## Scheduler lemmas -/

/-- One batch step either leaves the trace alone (missing video) or appends
the schedule time computed for the item's own index. -/
theorem scheduleBatchStep_trace_cases (env : SchedulerEnv) (p : Nat)
    (acc : List String × List (Nat × Nat × Nat)) (x : Nat × BatchItem) :
    (scheduleBatchStep env p acc x).2 = acc.2 ∨
    (scheduleBatchStep env p acc x).2 = acc.2 ++ [(x.1, scheduleTime p x.1)] := by
  unfold scheduleBatchStep
  by_cases h1 : x.2.videoPath = "" ∨ env.fileExists x.2.videoPath = false
  · left
    simp [h1]
  · right
    by_cases h2 : env.uploadResult x.1 = ""
    · simp [h1, h2]
    · by_cases h3 : env.scheduleResult x.1 = ""
      · simp [h1, h2, h3]
      · simp [h1, h2, h3]

/-- Every entry the batch fold adds to the trace carries the schedule time
of its own index. -/
theorem scheduleBatch_foldl_trace (env : SchedulerEnv) (p : Nat) :
    ∀ (l : List (Nat × BatchItem)) (acc : List String × List (Nat × Nat × Nat)),
      (∀ e ∈ acc.2, e.2 = scheduleTime p e.1) →
      ∀ e ∈ (l.foldl (scheduleBatchStep env p) acc).2, e.2 = scheduleTime p e.1 := by
  intro l
  induction l with
  | nil =>
    intro acc h
    simpa using h
  | cons x xs ih =>
    intro acc h
    simp only [List.foldl_cons]
    apply ih
    intro e he
    rcases scheduleBatchStep_trace_cases env p acc x with hc | hc <;> rw [hc] at he
    · exact h e he
    · rcases List.mem_append.mp he with h1 | h1
      · exact h e h1
      · rcases List.mem_singleton.mp h1 with rfl
        rfl

/-- Every trace entry of `scheduleBatch` carries the schedule time of its
own index. -/
theorem scheduleBatch_trace (env : SchedulerEnv) (p : Nat)
    (batch : List BatchItem) :
    ∀ e ∈ (scheduleBatch env p batch).2, e.2 = scheduleTime p e.1 := by
  intro e he
  unfold scheduleBatch at he
  by_cases hk : env.apiKey = ""
  · simp [hk] at he
  · rw [if_neg hk] at he
    exact scheduleBatch_foldl_trace env p batch.enum ([], []) (by simp) e he

/-! ## Claim C1 -/

/-- C1, counterexample: with `postsPerDay = 2` the item at index 2 is
scheduled at 09:00 (slot `(2 mod 2) mod 3 = 0`), while the claim's
`i mod 3 = 2` names the 18:00 slot.  The claim as stated is false. -/
theorem schedule_batch_slot_claim_false :
    (scheduleBatch envAll 2 batch3).2 = [(0, 1, 9), (1, 1, 13), (2, 2, 9)] ∧
    hoursList.getD (2 % 3) 0 = 18 ∧ (9 : Nat) ≠ 18 := by
  refine ⟨by decide, by decide, by decide⟩

/-- C1 (amended): for every batch and positive `postsPerDay`, the item at
enumeration index `i` is scheduled on day `i / postsPerDay + 1` relative to
now, at the daily slot numbered `(i mod postsPerDay) mod 3`, where slots
0, 1, 2 are 09:00, 13:00, 18:00. -/
theorem schedule_batch_slot_assignment (env : SchedulerEnv) (p : Nat)
    (batch : List BatchItem) (hp : 0 < p) :
    ∀ e ∈ (scheduleBatch env p batch).2,
      e.2.1 = e.1 / p + 1 ∧ e.2.2 = hoursList.getD (e.1 % p % 3) 0 := by
  intro e he
  have h := scheduleBatch_trace env p batch e he
  have h1 : e.2.1 = (scheduleTime p e.1).1 := by rw [h]
  have h2 : e.2.2 = (scheduleTime p e.1).2 := by rw [h]
  exact ⟨h1, h2⟩

/-- C1 witness: the amended statement evaluated for `postsPerDay = 2` at the
first trace entry of a concrete successful batch. -/
theorem schedule_batch_slot_assignment_witness :
    ((0, 1, 9) : Nat × Nat × Nat).2.1 = 0 / 2 + 1 ∧
    ((0, 1, 9) : Nat × Nat × Nat).2.2 = hoursList.getD (0 % 2 % 3) 0 :=
  schedule_batch_slot_assignment envAll 2 batch3 (by decide) (0, 1, 9) (by decide)

/-! ## Claim C7 -/

/-- C7: with `postsPerDay = 3`, any batch item that reaches the scheduling
computation at index 0, 1, 2 or 3 is assigned day+1 09:00, day+1 13:00,
day+1 18:00 and day+2 09:00 respectively. -/
theorem schedule_batch_first_four_slots (env : SchedulerEnv)
    (batch : List BatchItem) (e : Nat × Nat × Nat)
    (he : e ∈ (scheduleBatch env 3 batch).2) :
    (e.1 = 0 → e.2 = (1, 9)) ∧ (e.1 = 1 → e.2 = (1, 13)) ∧
    (e.1 = 2 → e.2 = (1, 18)) ∧ (e.1 = 3 → e.2 = (2, 9)) := by
  have h := scheduleBatch_trace env 3 batch e he
  refine ⟨fun h0 => ?_, fun h1 => ?_, fun h2 => ?_, fun h3 => ?_⟩
  · rw [h, h0]; decide
  · rw [h, h1]; decide
  · rw [h, h2]; decide
  · rw [h, h3]; decide

/-- C7 witness: in a concrete all-success batch of four items with
`postsPerDay = 3`, the entry at index 3 is scheduled on day+2 at 09:00. -/
theorem schedule_batch_first_four_slots_witness :
    ((3, 2, 9) : Nat × Nat × Nat).2 = (2, 9) :=
  (schedule_batch_first_four_slots envAll batch4 (3, 2, 9) (by decide)).2.2.2 rfl

/-! ## Stable descending sort lemmas -/

/-- Membership in the descending insertion. -/
theorem mem_insertDesc {α : Type} (key : α → ℚ) (x a : α) :
    ∀ l : List α, a ∈ insertDesc key x l ↔ a = x ∨ a ∈ l := by
  intro l
  induction l with
  | nil => simp [insertDesc]
  | cons y ys ih =>
    by_cases h : key x < key y
    · simp only [insertDesc, if_pos h, List.mem_cons, ih]
      tauto
    · simp only [insertDesc, if_neg h, List.mem_cons]

/-- The descending insertion permutes the element onto the list. -/
theorem insertDesc_perm {α : Type} (key : α → ℚ) (x : α) :
    ∀ l : List α, List.Perm (insertDesc key x l) (x :: l) := by
  intro l
  induction l with
  | nil => simp [insertDesc]
  | cons y ys ih =>
    by_cases h : key x < key y
    · rw [insertDesc, if_pos h]
      exact List.Perm.trans (ih.cons y) (List.Perm.swap x y ys)
    · rw [insertDesc, if_neg h]

/-- The stable descending sort is a permutation of its input. -/
theorem sortDesc_perm {α : Type} (key : α → ℚ) :
    ∀ l : List α, List.Perm (sortDesc key l) l := by
  intro l
  induction l with
  | nil => simp [sortDesc]
  | cons x xs ih =>
    rw [sortDesc]
    exact List.Perm.trans (insertDesc_perm key x (sortDesc key xs)) (ih.cons x)

/-- The descending insertion preserves descending sortedness. -/
theorem insertDesc_sorted {α : Type} (key : α → ℚ) (x : α) :
    ∀ {l : List α}, l.Pairwise (fun a b => key b ≤ key a) →
      (insertDesc key x l).Pairwise (fun a b => key b ≤ key a) := by
  intro l
  induction l with
  | nil =>
    intro _
    simp [insertDesc]
  | cons y ys ih =>
    intro hp
    rcases List.pairwise_cons.mp hp with ⟨h1, h2⟩
    by_cases h : key x < key y
    · rw [insertDesc, if_pos h]
      refine List.pairwise_cons.mpr ⟨?_, ih h2⟩
      intro b hb
      rcases (mem_insertDesc key x b ys).mp hb with rfl | hb2
      · exact le_of_lt h
      · exact h1 b hb2
    · rw [insertDesc, if_neg h]
      refine List.pairwise_cons.mpr ⟨?_, hp⟩
      intro b hb
      rcases List.mem_cons.mp hb with rfl | hb2
      · exact not_lt.mp h
      · exact le_trans (h1 b hb2) (not_lt.mp h)

/-- The stable descending sort sorts by key, descending. -/
theorem sortDesc_sorted {α : Type} (key : α → ℚ) :
    ∀ l : List α, (sortDesc key l).Pairwise (fun a b => key b ≤ key a) := by
  intro l
  induction l with
  | nil => simp [sortDesc]
  | cons x xs ih =>
    rw [sortDesc]
    exact insertDesc_sorted key x ih

/-- Inserting an indexed element commutes with dropping the indices. -/
theorem insertDesc_map_snd {β : Type} (key2 : β → ℚ) (x : Nat × β) :
    ∀ l : List (Nat × β),
      (insertDesc (fun p => key2 p.2) x l).map Prod.snd
        = insertDesc key2 x.2 (l.map Prod.snd) := by
  intro l
  induction l with
  | nil => simp [insertDesc]
  | cons y ys ih =>
    by_cases h : key2 x.2 < key2 y.2
    · rw [insertDesc, if_pos h, List.map_cons, ih, List.map_cons, insertDesc, if_pos h]
    · simp only [insertDesc, if_neg h, List.map_cons]

/-- Sorting an indexed list commutes with dropping the indices. -/
theorem sortDesc_map_snd {β : Type} (key2 : β → ℚ) :
    ∀ l : List (Nat × β),
      (sortDesc (fun p => key2 p.2) l).map Prod.snd
        = sortDesc key2 (l.map Prod.snd) := by
  intro l
  induction l with
  | nil => simp [sortDesc]
  | cons x xs ih =>
    rw [sortDesc, List.map_cons, sortDesc, insertDesc_map_snd, ih]

/-- Members of `enumFrom n` carry indices at least `n`. -/
theorem le_fst_of_mem_enumFrom {α : Type} :
    ∀ (l : List α) (n : Nat) (p : Nat × α), p ∈ l.enumFrom n → n ≤ p.1 := by
  intro l
  induction l with
  | nil => simp [List.enumFrom]
  | cons x xs ih =>
    intro n p hp
    rcases List.mem_cons.mp hp with rfl | hp2
    · exact le_refl n
    · exact le_trans (Nat.le_succ n) (ih (n + 1) p hp2)

/-- The indices of an enumerated list are strictly increasing. -/
theorem enumFrom_pairwise_fst {α : Type} :
    ∀ (l : List α) (n : Nat),
      (l.enumFrom n).Pairwise (fun p q => p.1 < q.1) := by
  intro l
  induction l with
  | nil =>
    intro n
    simp [List.enumFrom]
  | cons x xs ih =>
    intro n
    refine List.pairwise_cons.mpr ⟨?_, ih (n + 1)⟩
    intro q hq
    exact lt_of_lt_of_le (Nat.lt_succ_self n) (le_fst_of_mem_enumFrom xs (n + 1) q hq)

/-- The indices of `List.enum` are strictly increasing. -/
theorem enum_pairwise_fst {α : Type} (l : List α) :
    l.enum.Pairwise (fun p q => p.1 < q.1) :=
  enumFrom_pairwise_fst l 0

/-- Stability of the descending insertion on index-tagged elements: when the
inserted element's index is below every index already present, equal keys
keep it in front. -/
theorem insertDesc_stable {β : Type} (key2 : β → ℚ) (x : Nat × β) :
    ∀ {l : List (Nat × β)},
      l.Pairwise (fun p q => key2 q.2 < key2 p.2 ∨
        (key2 p.2 = key2 q.2 ∧ p.1 < q.1)) →
      (∀ y ∈ l, x.1 < y.1) →
      (insertDesc (fun p => key2 p.2) x l).Pairwise (fun p q =>
        key2 q.2 < key2 p.2 ∨ (key2 p.2 = key2 q.2 ∧ p.1 < q.1)) := by
  intro l
  induction l with
  | nil =>
    intro _ _
    simp [insertDesc]
  | cons y ys ih =>
    intro hp hidx
    rcases List.pairwise_cons.mp hp with ⟨h1, h2⟩
    by_cases h : key2 x.2 < key2 y.2
    · rw [insertDesc, if_pos h]
      refine List.pairwise_cons.mpr ⟨?_, ?_⟩
      · intro q hq
        rcases (mem_insertDesc (fun p => key2 p.2) x q ys).mp hq with rfl | hq2
        · exact Or.inl h
        · exact h1 q hq2
      · exact ih h2 (fun y hy => hidx y (List.mem_cons_of_mem _ hy))
    · rw [insertDesc, if_neg h]
      refine List.pairwise_cons.mpr ⟨?_, hp⟩
      intro q hq
      rcases List.mem_cons.mp hq with rfl | hq2
      · rcases lt_or_eq_of_le (not_lt.mp h) with hlt | heq
        · exact Or.inl hlt
        · exact Or.inr ⟨heq.symm, hidx q (List.mem_cons_self q ys)⟩
      · rcases h1 q hq2 with hlt | ⟨heq, _⟩
        · rcases lt_or_eq_of_le (not_lt.mp h) with hlt2 | heq2
          · exact Or.inl (lt_trans hlt hlt2)
          · exact Or.inl (heq2 ▸ hlt)
        · rcases lt_or_eq_of_le (not_lt.mp h) with hlt2 | heq2
          · exact Or.inl (heq ▸ hlt2)
          · exact Or.inr ⟨(heq2.symm.trans heq).symm ▸ rfl,
              hidx q (List.mem_cons_of_mem _ hq2)⟩

/-- Stability of the descending sort: sorting index-tagged elements whose
indices increase yields a list in which equal keys appear in index order. -/
theorem sortDesc_stable {β : Type} (key2 : β → ℚ) :
    ∀ l : List (Nat × β),
      l.Pairwise (fun p q => p.1 < q.1) →
      (sortDesc (fun p => key2 p.2) l).Pairwise (fun p q =>
        key2 q.2 < key2 p.2 ∨ (key2 p.2 = key2 q.2 ∧ p.1 < q.1)) := by
  intro l
  induction l with
  | nil =>
    intro _
    simp [sortDesc]
  | cons x xs ih =>
    intro hp
    rcases List.pairwise_cons.mp hp with ⟨h1, h2⟩
    rw [sortDesc]
    refine insertDesc_stable key2 x (ih h2) ?_
    intro y hy
    exact h1 y ((sortDesc_perm (fun p => key2 p.2) xs).mem_iff.mp hy)

/-! ## Claim C2 -/

/-- C2: the engagement score of an item with present numeric fields is
`(likes + shares) / max(views, 1)`; `get_top_content` is descending in that
score; the underlying sort is a permutation of the combined input; and it
is stable — on index-tagged items, equal scores keep input order. -/
theorem get_top_content_engagement_ranking :
    (∀ l s v : ℤ,
        engagementScore { likes := some l, shares := some s, views := some v }
          = ((l + s : ℤ) : ℚ) / ((max v 1 : ℤ) : ℚ)) ∧
    (∀ (items : List ScrapedItem) (count : Nat),
        (getTopContent items count).Pairwise
          (fun a b => engagementScore b ≤ engagementScore a)) ∧
    (∀ items : List ScrapedItem,
        List.Perm (sortDesc engagementScore items) items) ∧
    (∀ items : List ScrapedItem,
        (sortDesc (fun p => engagementScore p.2) items.enum).map Prod.snd
          = sortDesc engagementScore items ∧
        (sortDesc (fun p => engagementScore p.2) items.enum).Pairwise
          (fun p q => engagementScore q.2 < engagementScore p.2 ∨
            (engagementScore p.2 = engagementScore q.2 ∧ p.1 < q.1))) := by
  refine ⟨?_, ?_, ?_, ?_⟩
  · intro l s v
    simp only [engagementScore, orGetInt]
    rcases eq_or_ne l 0 with rfl | hl <;>
      rcases eq_or_ne s 0 with rfl | hs <;>
        rcases eq_or_ne v 0 with rfl | hv <;>
          simp [*]
  · intro items count
    unfold getTopContent
    by_cases h : items.isEmpty
    · simp [h]
    · rw [if_neg h]
      exact (sortDesc_sorted engagementScore items).sublist
        (List.take_sublist count _)
  · intro items
    exact sortDesc_perm engagementScore items
  · intro items
    constructor
    · rw [sortDesc_map_snd engagementScore items.enum, List.enum_map_snd]
    · exact sortDesc_stable engagementScore items.enum (enum_pairwise_fst items)

/-! ## Generation-phase lemmas -/

/-- A generation step on a missing row does nothing. -/
theorem genItemStep_none (env : GenEnv) (s : GenState) (qid : Nat)
    (h : s.db qid = none) : genItemStep env s qid = s := by
  simp [genItemStep, h]

/-- Characterization of a generation step on an existing row: the step
records exactly the transitions into `generating` and then into the final
outcome status, rewrites the row to the outcome content, and touches no
other row. -/
theorem genItemStep_some (env : GenEnv) (s : GenState) (qid : Nat)
    (c : Content) (h : s.db qid = some c) :
    (genItemStep env s qid).transitions
      = s.transitions ++ [(qid, c.status, Status.generating),
          (qid, Status.generating, genOutcomeStatus env qid)] ∧
    (genItemStep env s qid).db qid = some (genOutcomeContent env qid c) ∧
    (∀ q, q ≠ qid → (genItemStep env s qid).db q = s.db q) := by
  by_cases h1 : env.genVideo qid = ""
  · exact ⟨by simp [genItemStep, h, genUpdate, genOutcomeStatus, h1],
      by simp [genItemStep, h, genUpdate, genOutcomeContent, h1],
      fun q hq => by simp [genItemStep, h, genUpdate, h1, hq]⟩
  · by_cases h2 : env.synth qid = ""
    · exact ⟨by simp [genItemStep, h, genUpdate, genOutcomeStatus, h1, h2],
        by simp [genItemStep, h, genUpdate, genOutcomeContent, h1, h2],
        fun q hq => by simp [genItemStep, h, genUpdate, h1, h2, hq]⟩
    · by_cases h3 : env.compose qid = ""
      · exact ⟨by simp [genItemStep, h, genUpdate, genOutcomeStatus, h1, h2, h3],
          by simp [genItemStep, h, genUpdate, genOutcomeContent, h1, h2, h3],
          fun q hq => by simp [genItemStep, h, genUpdate, h1, h2, h3, hq]⟩
      · exact ⟨by simp [genItemStep, h, genUpdate, genOutcomeStatus, h1, h2, h3],
          by simp [genItemStep, h, genUpdate, genOutcomeContent, h1, h2, h3],
          fun q hq => by simp [genItemStep, h, genUpdate, h1, h2, h3, hq]⟩

/-- A generation step never changes another row. -/
theorem genItemStep_db_other (env : GenEnv) (s : GenState) (qid q : Nat)
    (h : q ≠ qid) : (genItemStep env s qid).db q = s.db q := by
  cases hdb : s.db qid with
  | none => rw [genItemStep_none env s qid hdb]
  | some c => exact (genItemStep_some env s qid c hdb).2.2 q h

/-- A pending row with an empty final path is mapped by the outcome content
to a row satisfying the final-path invariant clause. -/
theorem genOutcomeContent_inv (env : GenEnv) (qid : Nat) (c : Content)
    (hfp : c.finalVideoPath = "") :
    ((genOutcomeContent env qid c).finalVideoPath ≠ "" ↔
      ((genOutcomeContent env qid c).status = Status.generated ∨
       (genOutcomeContent env qid c).status = Status.scheduled)) := by
  unfold genOutcomeContent
  by_cases h1 : env.genVideo qid = ""
  · simp [h1, hfp]
  · by_cases h2 : env.synth qid = ""
    · simp [h1, h2, hfp]
    · by_cases h3 : env.compose qid = ""
      · simp [h1, h2, h3, hfp]
      · simp [h1, h2, h3]

/-- The outcome status of a generation step is reached from `generating` by
an allowed transition. -/
theorem genOutcomeStatus_allowed (env : GenEnv) (qid : Nat) :
    allowedNext Status.generating (genOutcomeStatus env qid) = true := by
  unfold genOutcomeStatus
  by_cases h1 : env.genVideo qid = ""
  · simp [h1, allowedNext]
  · by_cases h2 : env.synth qid = ""
    · simp [h1, h2, allowedNext]
    · by_cases h3 : env.compose qid = ""
      · simp [h1, h2, h3, allowedNext]
      · simp [h1, h2, h3, allowedNext]

/-- Folding the generation step over distinct pending ids preserves the
final-path invariant and performs only allowed transitions. -/
theorem genFold_spec (env : GenEnv) :
    ∀ (qids : List Nat) (s : GenState),
      qids.Nodup →
      (∀ q ∈ qids, ∀ c, s.db q = some c → c.status = Status.pending) →
      InvDB s.db →
      (∀ t ∈ s.transitions, allowedNext t.2.1 t.2.2 = true) →
      InvDB (qids.foldl (genItemStep env) s).db ∧
      (∀ t ∈ (qids.foldl (genItemStep env) s).transitions,
        allowedNext t.2.1 t.2.2 = true) := by
  intro qids
  induction qids with
  | nil =>
    intro s _ _ hInv ht
    exact ⟨hInv, ht⟩
  | cons q qs ih =>
    intro s hnd hpend hInv ht
    rcases List.nodup_cons.mp hnd with ⟨hq, hnd2⟩
    simp only [List.foldl_cons]
    cases hdb : s.db q with
    | none =>
      rw [genItemStep_none env s q hdb]
      exact ih s hnd2 (fun q2 h2 => hpend q2 (List.mem_cons_of_mem _ h2)) hInv ht
    | some c =>
      have hcp : c.status = Status.pending := hpend q (List.mem_cons_self q qs) c hdb
      have hcf : c.finalVideoPath = "" := by
        by_contra hne
        rcases (hInv q c hdb).mp hne with hg | hs2
        · rw [hcp] at hg
          exact Status.noConfusion hg
        · rw [hcp] at hs2
          exact Status.noConfusion hs2
      rcases genItemStep_some env s q c hdb with ⟨htr, hdbq, hother⟩
      apply ih
      · exact hnd2
      · intro q2 h2 c2 hc2
        rw [hother q2 (fun he => hq (he ▸ h2))] at hc2
        exact hpend q2 (List.mem_cons_of_mem _ h2) c2 hc2
      · intro q2 c2 hc2
        by_cases he : q2 = q
        · subst he
          rw [hdbq] at hc2
          cases hc2
          exact genOutcomeContent_inv env q2 c hcf
        · rw [hother q2 he] at hc2
          exact hInv q2 c2 hc2
      · intro t htm
        rw [htr] at htm
        rcases List.mem_append.mp htm with hin | hin
        · exact ht t hin
        · rcases List.mem_cons.mp hin with rfl | hin2
          · rw [hcp]
            rfl
          · rcases List.mem_singleton.mp hin2 with rfl
            exact genOutcomeStatus_allowed env q

/-- Folding the generation step over distinct pending ids performs only
allowed transitions (no invariant on the starting database needed). -/
theorem genFold_trans (env : GenEnv) :
    ∀ (qids : List Nat) (s : GenState),
      qids.Nodup →
      (∀ q ∈ qids, ∀ c, s.db q = some c → c.status = Status.pending) →
      (∀ t ∈ s.transitions, allowedNext t.2.1 t.2.2 = true) →
      ∀ t ∈ (qids.foldl (genItemStep env) s).transitions,
        allowedNext t.2.1 t.2.2 = true := by
  intro qids
  induction qids with
  | nil =>
    intro s _ _ ht
    simpa using ht
  | cons q qs ih =>
    intro s hnd hpend ht
    rcases List.nodup_cons.mp hnd with ⟨hq, hnd2⟩
    simp only [List.foldl_cons]
    cases hdb : s.db q with
    | none =>
      rw [genItemStep_none env s q hdb]
      exact ih s hnd2 (fun q2 h2 => hpend q2 (List.mem_cons_of_mem _ h2)) ht
    | some c =>
      have hcp : c.status = Status.pending := hpend q (List.mem_cons_self q qs) c hdb
      rcases genItemStep_some env s q c hdb with ⟨htr, _, hother⟩
      apply ih
      · exact hnd2
      · intro q2 h2 c2 hc2
        rw [hother q2 (fun he => hq (he ▸ h2))] at hc2
        exact hpend q2 (List.mem_cons_of_mem _ h2) c2 hc2
      · intro t htm
        rw [htr] at htm
        rcases List.mem_append.mp htm with hin | hin
        · exact ht t hin
        · rcases List.mem_cons.mp hin with rfl | hin2
          · rw [hcp]
            rfl
          · rcases List.mem_singleton.mp hin2 with rfl
            exact genOutcomeStatus_allowed env q

/-! ## Scheduling-phase lemmas -/

/-- A selected pair keeps the id it was built from. -/
theorem selectOne_fst (db : DB) (q : Nat) (r : Nat × BatchItem)
    (h : selectOne db q = some r) : r.1 = q := by
  unfold selectOne at h
  cases hc : db q with
  | none =>
    simp only [hc] at h
    exact Option.noConfusion h
  | some c =>
    simp only [hc] at h
    by_cases hst : c.status = Status.generated
    · rw [if_pos hst] at h
      by_cases hfp : c.finalVideoPath = ""
      · rw [if_pos hfp] at h
        exact absurd h (by simp)
      · rw [if_neg hfp] at h
        cases h
        rfl
    · rw [if_neg hst] at h
      exact absurd h (by simp)

/-- A pair selected into the batch comes from a row that is `generated`
with a non-empty final path. -/
theorem mem_selectBatch (db : DB) (qids : List Nat) (q : Nat) (b : BatchItem)
    (h : (q, b) ∈ selectBatch db qids) :
    ∃ c, db q = some c ∧ c.status = Status.generated ∧
      c.finalVideoPath ≠ "" := by
  rcases List.mem_filterMap.mp h with ⟨q0, _, hf⟩
  have hq0 : q0 = q := by
    have := selectOne_fst db q0 (q, b) hf
    exact this.symm
  subst hq0
  unfold selectOne at hf
  cases hc : db q0 with
  | none =>
    simp only [hc] at hf
    exact Option.noConfusion hf
  | some c =>
    simp only [hc] at hf
    by_cases hst : c.status = Status.generated
    · rw [if_pos hst] at hf
      by_cases hfp : c.finalVideoPath = ""
      · rw [if_pos hfp] at hf
        exact absurd hf (by simp)
      · exact ⟨c, rfl, hst, hfp⟩
    · rw [if_neg hst] at hf
      exact absurd hf (by simp)

/-- The ids of the selected batch form a sublist of the queued ids. -/
theorem selectBatch_fst_sublist (db : DB) :
    ∀ qids : List Nat,
      List.Sublist ((selectBatch db qids).map Prod.fst) qids := by
  intro qids
  induction qids with
  | nil => simp [selectBatch]
  | cons q qs ih =>
    unfold selectBatch at ih ⊢
    rw [List.filterMap_cons]
    cases hf : selectOne db q with
    | none => exact ih.cons q
    | some r =>
      rw [List.map_cons]
      have hr : r.1 = q := selectOne_fst db q r hf
      rw [hr]
      exact ih.cons₂ q

/-- The second components of a zip form a sublist of the second list. -/
theorem zip_map_snd_sublist {γ δ : Type} :
    ∀ (l₁ : List γ) (l₂ : List δ),
      List.Sublist ((l₁.zip l₂).map Prod.snd) l₂ := by
  intro l₁
  induction l₁ with
  | nil =>
    intro l₂
    simp
  | cons a as ih =>
    intro l₂
    cases l₂ with
    | nil => simp
    | cons b bs => simpa using (ih bs).cons₂ b

/-- A scheduling step never changes a row other than its own id. -/
theorem schedStep_db_other (s : SchedState) (p : String × (Nat × BatchItem))
    (q : Nat) (h : q ≠ p.2.1) : (schedStep s p).db q = s.db q := by
  unfold schedStep
  by_cases hg : p.2.1 ≠ 0 ∧ p.1 ≠ ""
  · rw [if_pos hg]
    cases hdb : s.db p.2.1 with
    | none => rfl
    | some c => simp [h]
  · rw [if_neg hg]

/-- A scheduling step appends at most its own id to the scheduled list. -/
theorem schedStep_ids (s : SchedState) (p : String × (Nat × BatchItem)) :
    (schedStep s p).scheduledIds = s.scheduledIds ∨
    (schedStep s p).scheduledIds = s.scheduledIds ++ [p.2.1] := by
  unfold schedStep
  by_cases hg : p.2.1 ≠ 0 ∧ p.1 ≠ ""
  · rw [if_pos hg]
    cases hdb : s.db p.2.1 with
    | none => right; rfl
    | some c => right; rfl
  · rw [if_neg hg]
    left
    rfl

/-- A scheduling step either keeps the transitions or appends the write of
`scheduled` over the current status of its own row. -/
theorem schedStep_trans (s : SchedState) (p : String × (Nat × BatchItem)) :
    (schedStep s p).transitions = s.transitions ∨
    ∃ c, s.db p.2.1 = some c ∧
      (schedStep s p).transitions
        = s.transitions ++ [(p.2.1, c.status, Status.scheduled)] := by
  unfold schedStep
  by_cases hg : p.2.1 ≠ 0 ∧ p.1 ≠ ""
  · rw [if_pos hg]
    cases hdb : s.db p.2.1 with
    | none => left; rfl
    | some c => right; exact ⟨c, rfl, rfl⟩
  · rw [if_neg hg]
    left
    rfl

/-- A scheduling step's write to its own row sets status `scheduled` and
keeps the final-video path. -/
theorem schedStep_db_self (s : SchedState) (p : String × (Nat × BatchItem)) :
    (schedStep s p).db p.2.1 = s.db p.2.1 ∨
    ∃ c, s.db p.2.1 = some c ∧
      (schedStep s p).db p.2.1
        = some { c with status := Status.scheduled, postSubmissionId := p.1 } := by
  unfold schedStep
  by_cases hg : p.2.1 ≠ 0 ∧ p.1 ≠ ""
  · rw [if_pos hg]
    cases hdb : s.db p.2.1 with
    | none =>
      left
      exact hdb.symm ▸ rfl
    | some c =>
      right
      exact ⟨c, rfl, by simp⟩
  · rw [if_neg hg]
    left
    rfl

/-- Folding the scheduling step only adds ids that were selected. -/
theorem schedFold_ids (selected : List (Nat × BatchItem)) :
    ∀ (l : List (String × (Nat × BatchItem))) (s : SchedState),
      (∀ p ∈ l, p.2 ∈ selected) →
      (∀ q ∈ s.scheduledIds, ∃ b, (q, b) ∈ selected) →
      ∀ q ∈ (l.foldl schedStep s).scheduledIds, ∃ b, (q, b) ∈ selected := by
  intro l
  induction l with
  | nil =>
    intro s _ hbase
    simpa using hbase
  | cons p ps ih =>
    intro s hsel hbase
    simp only [List.foldl_cons]
    apply ih
    · intro p2 h2
      exact hsel p2 (List.mem_cons_of_mem _ h2)
    · intro q hq
      rcases schedStep_ids s p with hid | hid <;> rw [hid] at hq
      · exact hbase q hq
      · rcases List.mem_append.mp hq with hin | hin
        · exact hbase q hin
        · rcases List.mem_singleton.mp hin with rfl
          exact ⟨p.2.2, hsel p (List.mem_cons_self p ps)⟩

/-- Folding the scheduling step leaves any row whose id never occurs in the
zipped list unchanged. -/
theorem schedFold_db_untouched (q : Nat) :
    ∀ (l : List (String × (Nat × BatchItem))) (s : SchedState),
      (∀ p ∈ l, p.2.1 ≠ q) →
      (l.foldl schedStep s).db q = s.db q := by
  intro l
  induction l with
  | nil =>
    intro s _
    rfl
  | cons p ps ih =>
    intro s hne
    simp only [List.foldl_cons]
    rw [ih _ (fun p2 h2 => hne p2 (List.mem_cons_of_mem _ h2))]
    exact schedStep_db_other s p q
      (fun he => hne p (List.mem_cons_self p ps) he.symm)

/-- Folding the scheduling step preserves the final-path invariant and never
changes a row's final-video path, provided every processed pair was
selected from the starting database. -/
theorem schedFold_inv (db0 : DB) (selected : List (Nat × BatchItem))
    (hqual : ∀ q b, (q, b) ∈ selected →
      ∃ c, db0 q = some c ∧ c.status = Status.generated ∧
        c.finalVideoPath ≠ "") :
    ∀ (l : List (String × (Nat × BatchItem))) (s : SchedState),
      (∀ p ∈ l, p.2 ∈ selected) →
      (∀ q, Option.map Content.finalVideoPath (s.db q)
        = Option.map Content.finalVideoPath (db0 q)) →
      InvDB s.db →
      InvDB ((l.foldl schedStep s).db) ∧
      (∀ q, Option.map Content.finalVideoPath ((l.foldl schedStep s).db q)
        = Option.map Content.finalVideoPath (db0 q)) := by
  intro l
  induction l with
  | nil =>
    intro s _ hfp hInv
    exact ⟨hInv, hfp⟩
  | cons p ps ih =>
    intro s hsel hfp hInv
    simp only [List.foldl_cons]
    have hps : ∀ p2 ∈ ps, p2.2 ∈ selected :=
      fun p2 h2 => hsel p2 (List.mem_cons_of_mem _ h2)
    rcases schedStep_db_self s p with hsame | ⟨c, hc, hnew⟩
    · apply ih _ hps
      · intro q
        by_cases he : q = p.2.1
        · subst he
          rw [hsame]
          exact hfp _
        · rw [schedStep_db_other s p q he]
          exact hfp q
      · intro q c2 hc2
        by_cases he : q = p.2.1
        · subst he
          rw [hsame] at hc2
          exact hInv _ c2 hc2
        · rw [schedStep_db_other s p q he] at hc2
          exact hInv q c2 hc2
    · have hself : (schedStep s p).db p.2.1
          = some { c with status := Status.scheduled, postSubmissionId := p.1 } :=
        hnew
      have hcf : c.finalVideoPath ≠ "" := by
        rcases hqual p.2.1 p.2.2 (hsel p (List.mem_cons_self p ps)) with
          ⟨c0, hc0, _, hc0f⟩
        have h2 := hfp p.2.1
        rw [hc, hc0] at h2
        simp only [Option.map_some'] at h2
        have heq : c.finalVideoPath = c0.finalVideoPath :=
          Option.some.inj h2
        rw [heq]
        exact hc0f
      apply ih _ hps
      · intro q
        by_cases he : q = p.2.1
        · subst he
          rw [hself]
          have h3 := hfp p.2.1
          rw [hc] at h3
          simpa using h3
        · rw [schedStep_db_other s p q he]
          exact hfp q
      · intro q c2 hc2
        by_cases he : q = p.2.1
        · subst he
          rw [hself] at hc2
          cases hc2
          constructor
          · intro _
            right
            rfl
          · intro _
            exact hcf
        · rw [schedStep_db_other s p q he] at hc2
          exact hInv q c2 hc2

/-- Folding the scheduling step over pairs with distinct, still-untouched,
selected ids records only `generated → scheduled` transitions. -/
theorem schedFold_trans (db0 : DB) (selected : List (Nat × BatchItem))
    (hqual : ∀ q b, (q, b) ∈ selected →
      ∃ c, db0 q = some c ∧ c.status = Status.generated ∧
        c.finalVideoPath ≠ "") :
    ∀ (l : List (String × (Nat × BatchItem))) (s : SchedState),
      (∀ p ∈ l, p.2 ∈ selected) →
      (∀ p ∈ l, s.db p.2.1 = db0 p.2.1) →
      List.Nodup (l.map fun p => p.2.1) →
      (∀ t ∈ s.transitions,
        t.2.1 = Status.generated ∧ t.2.2 = Status.scheduled) →
      ∀ t ∈ (l.foldl schedStep s).transitions,
        t.2.1 = Status.generated ∧ t.2.2 = Status.scheduled := by
  intro l
  induction l with
  | nil =>
    intro s _ _ _ hbase
    simpa using hbase
  | cons p ps ih =>
    intro s hsel hdb hnd hbase
    rcases List.nodup_cons.mp hnd with ⟨hq, hnd2⟩
    simp only [List.foldl_cons]
    apply ih
    · intro p2 h2
      exact hsel p2 (List.mem_cons_of_mem _ h2)
    · intro p2 h2
      have hne : p2.2.1 ≠ p.2.1 := by
        intro he
        apply hq
        have hmm : p2.2.1 ∈ List.map (fun r => r.2.1) ps :=
          List.mem_map.mpr ⟨p2, h2, rfl⟩
        rw [he] at hmm
        exact hmm
      rw [schedStep_db_other s p p2.2.1 hne]
      exact hdb p2 (List.mem_cons_of_mem _ h2)
    · exact hnd2
    · intro t htm
      rcases schedStep_trans s p with htr | ⟨c, hc, htr⟩ <;> rw [htr] at htm
      · exact hbase t htm
      · rcases List.mem_append.mp htm with hin | hin
        · exact hbase t hin
        · rcases List.mem_singleton.mp hin with rfl
          rcases hqual p.2.1 p.2.2 (hsel p (List.mem_cons_self p ps)) with
            ⟨c0, hc0, hst0, _⟩
          have : s.db p.2.1 = db0 p.2.1 := hdb p (List.mem_cons_self p ps)
          rw [hc, hc0] at this
          have hcc : c = c0 := Option.some.inj this
          exact ⟨by rw [hcc]; exact hst0, rfl⟩

/-- Consolidated behaviour of `run_scheduling`: scheduled ids were
`generated` with a final path at the start of the call; rows that do not
qualify are untouched; the final-path invariant is preserved; and with
distinct queue ids every transition performed is `generated → scheduled`. -/
theorem runScheduling_spec (env : SchedulerEnv) (p : Nat) (db : DB)
    (qids : List Nat) :
    (∀ q ∈ (runScheduling env p db qids).scheduledIds,
      ∃ c, db q = some c ∧ c.status = Status.generated ∧
        c.finalVideoPath ≠ "") ∧
    (∀ q, (∀ c, db q = some c →
        ¬(c.status = Status.generated ∧ c.finalVideoPath ≠ "")) →
      (runScheduling env p db qids).db q = db q) ∧
    (InvDB db → InvDB (runScheduling env p db qids).db) ∧
    (qids.Nodup →
      ∀ t ∈ (runScheduling env p db qids).transitions,
        t.2.1 = Status.generated ∧ t.2.2 = Status.scheduled) := by
  unfold runScheduling
  by_cases hk : env.apiKey = ""
  · rw [if_pos hk]
    exact ⟨by simp, fun q _ => rfl, fun h => h, by simp⟩
  · rw [if_neg hk]
    by_cases hempty : (selectBatch db qids).isEmpty
    · rw [if_pos hempty]
      exact ⟨by simp, fun q _ => rfl, fun h => h, by simp⟩
    · rw [if_neg hempty]
      have hqual : ∀ q b, (q, b) ∈ selectBatch db qids →
          ∃ c, db q = some c ∧ c.status = Status.generated ∧
            c.finalVideoPath ≠ "" :=
        fun q b hm => mem_selectBatch db qids q b hm
      have hzip : ∀ pr ∈ (scheduleBatch env p ((selectBatch db qids).map Prod.snd)).1.zip
          (selectBatch db qids), pr.2 ∈ selectBatch db qids :=
        fun pr hm => (List.of_mem_zip hm).2
      refine ⟨?_, ?_, ?_, ?_⟩
      · intro q hq
        rcases schedFold_ids (selectBatch db qids) _ ⟨db, [], []⟩ hzip
          (by simp) q hq with ⟨b, hb⟩
        exact hqual q b hb
      · intro q hnq
        apply schedFold_db_untouched q _ ⟨db, [], []⟩
        intro pr hpr he
        rcases mem_selectBatch db qids pr.2.1 pr.2.2 (hzip pr hpr) with
          ⟨c, hc, hst, hfp2⟩
        rw [he] at hc
        exact hnq c hc ⟨hst, hfp2⟩
      · intro hInv
        exact (schedFold_inv db (selectBatch db qids) hqual _ ⟨db, [], []⟩
          hzip (fun q => rfl) hInv).1
      · intro hnd
        apply schedFold_trans db (selectBatch db qids) hqual _ ⟨db, [], []⟩
          hzip (fun pr _ => rfl) ?_ (by simp)
        have hsub1 : List.Sublist
            ((((scheduleBatch env p ((selectBatch db qids).map Prod.snd)).1.zip
              (selectBatch db qids)).map Prod.snd).map Prod.fst)
            ((selectBatch db qids).map Prod.fst) :=
          (zip_map_snd_sublist _ _).map Prod.fst
        have hnds : ((selectBatch db qids).map Prod.fst).Nodup :=
          (selectBatch_fst_sublist db qids).nodup hnd
        have := hsub1.nodup hnds
        rwa [List.map_map] at this

/-! ## Claim C3 -/

/-- C3, counterexample: re-running `run_generation` on an item that is
already `generated` (final path set) with a failing video API leaves the
item `failed` while `final_video_path` is still set — the claimed
iff-invariant is false for that reachable operation sequence. -/
theorem final_path_invariant_claim_false :
    Option.map (fun c => (c.status, c.finalVideoPath))
        ((runGeneration envFailGen dbGenerated [1]).db 1)
      = some (Status.failed, "f.mp4") ∧
    ("f.mp4" : String) ≠ "" ∧
    Status.failed ≠ Status.generated ∧ Status.failed ≠ Status.scheduled := by
  exact ⟨by decide, by decide, by decide, by decide⟩

/-- C3 (amended): the final-path iff-invariant is preserved by
`add_content`, by `run_generation` whenever the queued ids are distinct and
still `pending` at the start of the call, and by `run_scheduling`
unconditionally. -/
theorem final_path_invariant_guarded :
    (∀ (db : DB) (qid : Nat) (cap : String),
      InvDB db → InvDB (addContentAt db qid cap)) ∧
    (∀ (env : GenEnv) (db : DB) (qids : List Nat),
      InvDB db → qids.Nodup →
      (∀ q ∈ qids, ∀ c, db q = some c → c.status = Status.pending) →
      InvDB (runGeneration env db qids).db) ∧
    (∀ (env : SchedulerEnv) (p : Nat) (db : DB) (qids : List Nat),
      InvDB db → InvDB (runScheduling env p db qids).db) := by
  refine ⟨?_, ?_, ?_⟩
  · intro db qid cap hInv q c h
    unfold addContentAt at h
    by_cases he : q = qid
    · rw [if_pos he] at h
      cases h
      simp
    · rw [if_neg he] at h
      exact hInv q c h
  · intro env db qids hInv hnd hpend
    unfold runGeneration
    by_cases hs : env.soulId = ""
    · rw [if_pos hs]
      exact hInv
    · rw [if_neg hs]
      exact (genFold_spec env qids ⟨db, [], [], []⟩ hnd hpend hInv (by simp)).1
  · intro env p db qids hInv
    exact (runScheduling_spec env p db qids).2.2.1 hInv

/-- C3 witness: the guarded invariant holds after running generation (with
every external call failing) on a freshly discovered pending item. -/
theorem final_path_invariant_guarded_witness :
    InvDB (runGeneration envFailGen dbPending [1]).db := by
  apply final_path_invariant_guarded.2.1 envFailGen dbPending [1]
  · intro q c h
    unfold dbPending at h
    by_cases hq : q = 1
    · rw [if_pos hq] at h
      cases h
      decide
    · rw [if_neg hq] at h
      exact Option.noConfusion h
  · decide
  · intro q hq c h
    rcases List.mem_singleton.mp hq with rfl
    unfold dbPending at h
    rw [if_pos rfl] at h
    cases h
    rfl

/-! ## Claim C4 -/

/-- C4, counterexample: `run_generation` applied to an item that is already
`scheduled` performs the transition scheduled → generating (and then
generating → failed), so the claimed monotonicity over every operation
sequence is false. -/
theorem status_transitions_claim_false :
    (runGeneration envFailGen dbScheduled [1]).transitions
      = [(1, Status.scheduled, Status.generating),
         (1, Status.generating, Status.failed)] ∧
    allowedNext Status.scheduled Status.generating = false := by
  exact ⟨by decide, by decide⟩

/-- C4 (amended): when `run_generation` is applied to distinct ids that are
still `pending`, every transition it performs lies on the monotone chain
pending → generating → (generated or failed); and `run_scheduling` over
distinct ids performs only generated → scheduled transitions — `scheduled`
is reached only from `generated` and no transition skips `generating`. -/
theorem status_transitions_monotonic :
    (∀ (env : GenEnv) (db : DB) (qids : List Nat),
      qids.Nodup →
      (∀ q ∈ qids, ∀ c, db q = some c → c.status = Status.pending) →
      ∀ t ∈ (runGeneration env db qids).transitions,
        allowedNext t.2.1 t.2.2 = true) ∧
    (∀ (env : SchedulerEnv) (p : Nat) (db : DB) (qids : List Nat),
      qids.Nodup →
      ∀ t ∈ (runScheduling env p db qids).transitions,
        t.2.1 = Status.generated ∧ t.2.2 = Status.scheduled) := by
  constructor
  · intro env db qids hnd hpend
    unfold runGeneration
    by_cases hs : env.soulId = ""
    · rw [if_pos hs]
      simp
    · rw [if_neg hs]
      exact genFold_trans env qids ⟨db, [], [], []⟩ hnd hpend (by simp)
  · intro env p db qids hnd t ht
    exact (runScheduling_spec env p db qids).2.2.2 hnd t ht

/-- C4 witness: generation over a concrete pending item performs the
allowed transition pending → generating. -/
theorem status_transitions_monotonic_witness :
    allowedNext ((1, Status.pending, Status.generating) : Nat × Status × Status).2.1
      ((1, Status.pending, Status.generating) : Nat × Status × Status).2.2 = true := by
  apply status_transitions_monotonic.1 envFailGen dbPending [1]
  · decide
  · intro q hq c h
    rcases List.mem_singleton.mp hq with rfl
    unfold dbPending at h
    rw [if_pos rfl] at h
    cases h
    rfl
  · decide

/-! ## Claim C8 -/

/-- C8: with no Soul ID configured, `run_generation` returns an empty
generated-id list, performs no transition, makes no video-API call, and
leaves the database untouched. -/
theorem run_generation_no_soul (env : GenEnv) (db : DB) (qids : List Nat)
    (h : env.soulId = "") :
    runGeneration env db qids = ⟨db, [], [], []⟩ := by
  unfold runGeneration
  rw [if_pos h]

/-- C8 witness: a concrete no-Soul environment over a pending item. -/
theorem run_generation_no_soul_witness :
    runGeneration envNoSoul dbPending [1] = ⟨dbPending, [], [], []⟩ :=
  run_generation_no_soul envNoSoul dbPending [1] rfl

/-! ## Claim C9 -/

/-- C9: every id `run_scheduling` schedules had status `generated` and a
non-empty final path at the start of the call, and any row not meeting both
conditions is left unchanged by the call. -/
theorem run_scheduling_preconditions (env : SchedulerEnv) (p : Nat)
    (db : DB) (qids : List Nat) :
    (∀ q ∈ (runScheduling env p db qids).scheduledIds,
      ∃ c, db q = some c ∧ c.status = Status.generated ∧
        c.finalVideoPath ≠ "") ∧
    (∀ q, (∀ c, db q = some c →
        ¬(c.status = Status.generated ∧ c.finalVideoPath ≠ "")) →
      (runScheduling env p db qids).db q = db q) :=
  ⟨(runScheduling_spec env p db qids).1, (runScheduling_spec env p db qids).2.1⟩

/-- C9 witness: scheduling over a database whose only item is still pending
leaves that row unchanged. -/
theorem run_scheduling_preconditions_witness :
    (runScheduling envAll 3 dbPending [1]).db 1 = dbPending 1 := by
  apply (run_scheduling_preconditions envAll 3 dbPending [1]).2 1
  intro c h
  unfold dbPending at h
  rw [if_pos rfl] at h
  cases h
  decide

/-! ## Claim C5 -/

/-- C5, counterexample: `BlatoScheduler` requires a credential (its upload
operation returns None without one) yet its constructor does not raise on a
missing key, unlike `ApifyScraper` — so the claim that missing-credential
errors are raised at construction for every component requiring credentials
is false. -/
theorem credential_raise_claim_false :
    blatoSchedulerInit "" = Except.ok () ∧
    uploadMedia "" (Except.ok "media") = none ∧
    apifyScraperInit "" = Except.error "APIFY_API_TOKEN is not set in .env" :=
  ⟨rfl, rfl, rfl⟩

/-- C5 (amended): exceptions at external call boundaries are caught and
converted to null returns, and operations return null outright when their
credential is missing; but missing-credential errors are raised at
construction only by `ApifyScraper` and `GeminiAnalyzer` — the Blotato,
Higgsfield and ElevenLabs components never raise at construction and only
log a warning. -/
theorem credential_error_handling :
    (∀ k : String,
      blatoSchedulerInit k = Except.ok () ∧
      higgsFieldInit k = Except.ok () ∧
      elevenLabsInit k = Except.ok ()) ∧
    apifyScraperInit "" = Except.error "APIFY_API_TOKEN is not set in .env" ∧
    geminiAnalyzerInit "" = Except.error "GEMINI_API_KEY is not set in .env" ∧
    (∀ k e : String,
      uploadMedia k (Except.error e) = none ∧
      schedulePostOp k (Except.error e) = none ∧
      generateVideoOp k (Except.error e) = none) ∧
    (∀ r : Except String String,
      uploadMedia "" r = none ∧ schedulePostOp "" r = none ∧
      generateVideoOp "" r = none) := by
  refine ⟨fun k => ⟨rfl, rfl, rfl⟩, rfl, rfl, ?_, ?_⟩
  · intro k e
    by_cases hk : k = "" <;>
      simp [uploadMedia, schedulePostOp, generateVideoOp, hk]
  · intro r
    simp [uploadMedia, schedulePostOp, generateVideoOp]

/-! ## Video editor lemmas -/

/-- The intro pass writes only its output path. -/
theorem addIntroCard_other (env : ComposeEnv) (fs : FS) (out p : String)
    (h : p ≠ out) : (addIntroCard env fs out).1 p = fs p := by
  unfold addIntroCard
  by_cases ho : env.introOk
  · simp [ho, h]
  · simp [ho]

/-- The audio-merge pass writes only its output path. -/
theorem addAudioToVideo_other (env : ComposeEnv) (fs : FS) (out p : String)
    (h : p ≠ out) : (addAudioToVideo env fs out).1 p = fs p := by
  unfold addAudioToVideo
  by_cases ho : env.mergeOk
  · simp [ho, h]
  · simp [ho]

/-- The caption pass writes only its output path. -/
theorem addCaptions_other (env : ComposeEnv) (fs : FS) (out p : String)
    (h : p ≠ out) : (addCaptions env fs out).1 p = fs p := by
  unfold addCaptions
  by_cases ho : env.captionOk
  · simp [ho, h]
  · simp [ho]

/-- A successful audio-merge pass returns its output path and leaves a
verified file there. -/
theorem addAudioToVideo_some (env : ComposeEnv) (fs : FS) (out p : String)
    (h : (addAudioToVideo env fs out).2 = some p) :
    p = out ∧ ∃ sz, (addAudioToVideo env fs out).1 out = some sz ∧ 1 ≤ sz := by
  unfold addAudioToVideo at h ⊢
  by_cases ho : env.mergeOk
  · rw [if_pos ho] at h ⊢
    simp only at h
    by_cases hv : verifyFile (fun q => if q = out then some env.mergeSize else fs q) out 1 = true
    · rw [if_pos hv] at h
      cases h
      refine ⟨rfl, env.mergeSize, by simp, ?_⟩
      unfold verifyFile at hv
      simp only [if_pos rfl] at hv
      exact of_decide_eq_true hv
    · rw [if_neg hv] at h
      exact Option.noConfusion h
  · rw [if_neg ho] at h
    exact Option.noConfusion h

/-- A successful caption pass returns its output path and leaves a verified
file there. -/
theorem addCaptions_some (env : ComposeEnv) (fs : FS) (out p : String)
    (h : (addCaptions env fs out).2 = some p) :
    p = out ∧ ∃ sz, (addCaptions env fs out).1 out = some sz ∧ 1 ≤ sz := by
  unfold addCaptions at h ⊢
  by_cases ho : env.captionOk
  · rw [if_pos ho] at h ⊢
    simp only at h
    by_cases hv : verifyFile (fun q => if q = out then some env.captionSize else fs q) out 1 = true
    · rw [if_pos hv] at h
      cases h
      refine ⟨rfl, env.captionSize, by simp, ?_⟩
      unfold verifyFile at hv
      simp only [if_pos rfl] at hv
      exact of_decide_eq_true hv
    · rw [if_neg hv] at h
      exact Option.noConfusion h
  · rw [if_neg ho] at h
    exact Option.noConfusion h

/-! ## Claim C6 -/

/-- C6: when the intro-card pass fails but the input video (and audio) files
are valid, `compose_final` still returns the output path and the file there
passes the minimum-size check — the later passes degrade to carrying the
prior result forward, and a failed caption burn copies the best result so
far onto the output path. -/
theorem compose_final_intro_failure_degrades
    (env : ComposeEnv) (fs : FS) (videoPath outputPath audioPath : String)
    (sv sa : Nat)
    (hval : fs videoPath = some sv) (hsv : 1 ≤ sv)
    (haud : fs audioPath = some sa) (hsa : 1 ≤ sa)
    (hintro : (addIntroCard env fs introTmp).2 = none)
    (hv1 : videoPath ≠ introTmp) (hv2 : videoPath ≠ mergedTmp)
    (hv3 : videoPath ≠ outputPath)
    (ho1 : outputPath ≠ introTmp) (ho2 : outputPath ≠ mergedTmp) :
    (composeFinal env fs videoPath outputPath).2 = some outputPath ∧
    verifyFile (composeFinal env fs videoPath outputPath).1 outputPath 1 = true := by
  have hF1v : (addIntroCard env fs introTmp).1 videoPath = some sv := by
    rw [addIntroCard_other env fs introTmp videoPath hv1]
    exact hval
  have hF2v : (addAudioToVideo env (addIntroCard env fs introTmp).1 mergedTmp).1
      videoPath = some sv := by
    rw [addAudioToVideo_other env _ mergedTmp videoPath hv2]
    exact hF1v
  simp only [composeFinal, hintro]
  cases hr2 : (addAudioToVideo env (addIntroCard env fs introTmp).1 mergedTmp).2 with
  | some mp =>
    rcases addAudioToVideo_some env _ mergedTmp mp hr2 with ⟨rfl, sz2, hsz2eq, hsz2⟩
    cases hr3 : (addCaptions env
        (addAudioToVideo env (addIntroCard env fs introTmp).1 mergedTmp).1
        outputPath).2 with
    | some cp =>
      rcases addCaptions_some env _ outputPath cp hr3 with ⟨hcp, sz3, h3eq, h3ge⟩
      subst cp
      have hver : verifyFile (addCaptions env
          (addAudioToVideo env (addIntroCard env fs introTmp).1 mergedTmp).1
          outputPath).1 outputPath 1 = true := by
        simp [verifyFile, h3eq, h3ge]
      rw [if_pos hver]
      refine ⟨rfl, ?_⟩
      simp [verifyFile, ho1, ho2, h3eq, h3ge]
    | none =>
      have hF3m : (addCaptions env
          (addAudioToVideo env (addIntroCard env fs introTmp).1 mergedTmp).1
          outputPath).1 mergedTmp = some sz2 := by
        rw [addCaptions_other env _ outputPath mergedTmp (Ne.symm ho2)]
        exact hsz2eq
      simp only [hF3m]
      have hver : verifyFile (fun p => if p = outputPath then some sz2
          else (addCaptions env
            (addAudioToVideo env (addIntroCard env fs introTmp).1 mergedTmp).1
            outputPath).1 p) outputPath 1 = true := by
        simp [verifyFile, hsz2]
      rw [if_pos hver]
      refine ⟨rfl, ?_⟩
      simp [verifyFile, ho1, ho2, hsz2]
  | none =>
    cases hr3 : (addCaptions env
        (addAudioToVideo env (addIntroCard env fs introTmp).1 mergedTmp).1
        outputPath).2 with
    | some cp =>
      rcases addCaptions_some env _ outputPath cp hr3 with ⟨hcp, sz3, h3eq, h3ge⟩
      subst cp
      have hver : verifyFile (addCaptions env
          (addAudioToVideo env (addIntroCard env fs introTmp).1 mergedTmp).1
          outputPath).1 outputPath 1 = true := by
        simp [verifyFile, h3eq, h3ge]
      rw [if_pos hver]
      refine ⟨rfl, ?_⟩
      simp [verifyFile, ho1, ho2, h3eq, h3ge]
    | none =>
      have hF3v : (addCaptions env
          (addAudioToVideo env (addIntroCard env fs introTmp).1 mergedTmp).1
          outputPath).1 videoPath = some sv := by
        rw [addCaptions_other env _ outputPath videoPath hv3]
        exact hF2v
      simp only [hF3v]
      have hver : verifyFile (fun p => if p = outputPath then some sv
          else (addCaptions env
            (addAudioToVideo env (addIntroCard env fs introTmp).1 mergedTmp).1
            outputPath).1 p) outputPath 1 = true := by
        simp [verifyFile, hsv]
      rw [if_pos hver]
      refine ⟨rfl, ?_⟩
      simp [verifyFile, ho1, ho2, hsv]

/-- C6 witness: a concrete run in which the intro card fails, over a 5-byte
video and a 4-byte audio file, still composes a verified final video. -/
theorem compose_final_intro_failure_degrades_witness :
    (composeFinal envIntroFails fsVideoAudio "v.mp4" "final.mp4").2
        = some "final.mp4" ∧
    verifyFile (composeFinal envIntroFails fsVideoAudio "v.mp4" "final.mp4").1
        "final.mp4" 1 = true :=
  compose_final_intro_failure_degrades envIntroFails fsVideoAudio
    "v.mp4" "final.mp4" "a.mp3" 5 4 rfl (by decide) rfl (by decide)
    (by decide) (by decide) (by decide) (by decide) (by decide) (by decide)

/-! ## Caption wrapping lemmas -/

/-- The joined length of a single-word line is the word's length. -/
theorem lineLen_single (w : String) : lineLen [w] = w.length := by
  simp [lineLen]

/-- Appending a word to a non-empty line costs its length plus one space. -/
theorem lineLen_append_word (cur : List String) (w : String) (h : cur ≠ []) :
    lineLen (cur ++ [w]) = lineLen cur + w.length + 1 := by
  cases cur with
  | nil => exact absurd rfl h
  | cons c cs =>
    simp [lineLen, List.sum_append]
    omega

/-- Invariant of the wrapping loop: if every remaining word fits in 39
characters and the current line fits in 40, every produced line fits in 40
and the produced lines flatten back to current line plus remaining words. -/
theorem wrapAux_spec :
    ∀ (ws : List String) (cur : List String),
      (∀ w ∈ ws, w.length ≤ 39) →
      lineLen cur ≤ 40 →
      (∀ l ∈ wrapAux cur ws, lineLen l ≤ 40) ∧
      (wrapAux cur ws).flatten = cur ++ ws := by
  intro ws
  induction ws with
  | nil =>
    intro cur _ hcur
    constructor
    · intro l hl
      unfold wrapAux at hl
      by_cases hc : cur.isEmpty
      · rw [if_pos hc] at hl
        exact absurd hl (List.not_mem_nil l)
      · rw [if_neg hc] at hl
        rcases List.mem_singleton.mp hl with rfl
        exact hcur
    · unfold wrapAux
      by_cases hc : cur.isEmpty
      · rw [if_pos hc]
        simp [List.isEmpty_iff.mp hc]
      · rw [if_neg hc]
        simp
  | cons w ws2 ih =>
    intro cur hws hcur
    have hw : w.length ≤ 39 := hws w (List.mem_cons_self w ws2)
    have hws2 : ∀ w2 ∈ ws2, w2.length ≤ 39 :=
      fun w2 h2 => hws w2 (List.mem_cons_of_mem _ h2)
    unfold wrapAux
    by_cases hpush : lineLen cur + w.length + 1 > 40
    · rw [if_pos hpush]
      have hsingle : lineLen [w] ≤ 40 := by
        rw [lineLen_single]
        omega
      rcases ih [w] hws2 hsingle with ⟨ha, hb⟩
      constructor
      · intro l hl
        rcases List.mem_cons.mp hl with rfl | hl2
        · exact hcur
        · exact ha l hl2
      · rw [List.flatten_cons, hb]
        simp
    · rw [if_neg hpush]
      have hnew : lineLen (cur ++ [w]) ≤ 40 := by
        by_cases hc : cur = []
        · subst hc
          simpa [lineLen_single] using hw.trans (by omega)
        · rw [lineLen_append_word cur w hc]
          omega
      rcases ih (cur ++ [w]) hws2 hnew with ⟨ha, hb⟩
      refine ⟨ha, ?_⟩
      rw [hb]
      simp

/-! ## Claim C10 -/

/-- C10: for a caption whose whitespace-separated words are each at most 39
characters, the wrapping loop of `add_captions` yields lines of joined
length at most 40, and the words of the lines, in order, are exactly the
words of the caption. -/
theorem add_captions_wrapping (words : List String)
    (h : ∀ w ∈ words, w.length ≤ 39) :
    (∀ l ∈ wrapWords words, lineLen l ≤ 40) ∧
    (wrapWords words).flatten = words := by
  have hspec := wrapAux_spec words [] h (by simp [lineLen])
  unfold wrapWords
  simpa using hspec

/-- C10 witness: wrapping a concrete two-word caption keeps the words in
order. -/
theorem add_captions_wrapping_witness :
    (wrapWords ["hello", "world"]).flatten = ["hello", "world"] :=
  (add_captions_wrapping ["hello", "world"] (by decide)).2

end Clawdbot
